import Mathlib

/-!
Verification of the hare3 consensus scheduler and gossip handler
(package hare3, file hare.go of go-spacemesh) against its
natural-language specification.

Machine integers of the source (uint8, uint16, uint32, uint64) are
modelled as Nat; the arithmetic below never underflows or overflows the
corresponding widths on the guarded paths, except where noted.
time.Duration values (int64 nanoseconds) are modelled as Int, in
abstract ticks.
-/

namespace Hare3

/-- Modelled from the spec: the hare3 round enumeration is not under
src (hare.go only references the constants); the spec gives the round
set as preround, status, proposal, commit, notify together with the
sentinel rounds hardlock and softlock, with the preround at round
index 0 and an iteration terminating at its hardlock round (round
index 1). -/
inductive Round
  | preround
  | hardlock
  | softlock
  | status
  | proposal
  | commit
  | notify
deriving DecidableEq, Repr

/-- Modelled from the spec: numeric index of a round inside an
iteration; the preround has index 0 and hardlock, the terminating
round of an iteration, has index 1. -/
def Round.index : Round → Nat
  | Round.preround => 0
  | Round.hardlock => 1
  | Round.softlock => 2
  | Round.status => 3
  | Round.proposal => 4
  | Round.commit => 5
  | Round.notify => 6

/-- Modelled from the spec: the number of rounds in one iteration,
used by the absolute round order. -/
def roundsPerIter : Nat := 7

/-- Modelled from the spec: an (iteration, round) pair; the source
type (types.go of hare3) is not under src. Iter is a uint8 in the
source. -/
structure IterRound where
  iter : Nat
  round : Round
deriving DecidableEq, Repr

/-- Modelled from the spec: the total order `absolute = iter *
rounds_per_iter + round_index`; the preround (0, preround) has
absolute 0. -/
def IterRound.absolute (ir : IterRound) : Nat :=
  ir.iter * roundsPerIter + ir.round.index

/-- CommitteeUpgrade from hare.go: an upgrade of the committee size
activating at a layer. Layer is a uint32, Size a uint16. -/
structure CommitteeUpgrade where
  layer : Nat
  size : Nat
deriving DecidableEq, Repr

/-- Config from hare.go. Durations are Int ticks, layer ids and sizes
are Nat. -/
structure Config where
  enable : Bool
  enableLayer : Nat
  disableLayer : Nat
  committee : Nat
  committeeUpgrade : Option CommitteeUpgrade
  leaders : Nat
  iterationsLimit : Nat
  preroundDelay : Int
  roundDuration : Int
  logStats : Bool
  protocolName : String
deriving DecidableEq, Repr

/-- Config.CommitteeFor from hare.go: the committee size for a layer
is the upgrade size when an upgrade is configured and the layer is at
or after the upgrade layer, and the configured committee size
otherwise. -/
def Config.committeeFor (cfg : Config) (layer : Nat) : Nat :=
  match cfg.committeeUpgrade with
  | some u => if u.layer ≤ layer then u.size else cfg.committee
  | none => cfg.committee

/-- Config.roundStart from hare.go: expected time for an
iteration/round pair relative to layer start. The source tests
`round.Round == 0`, i.e. whether the round is the preround. -/
def Config.roundStart (cfg : Config) (ir : IterRound) : Int :=
  if ir.round = Round.preround then cfg.preroundDelay
  else cfg.preroundDelay + ((ir.absolute - 1 : Nat) : Int) * cfg.roundDuration

/-- Outcome of Config.Validate from hare.go. -/
inductive ValidateResult
  | ok
  | errTerminates
  | errDisableBeforeEnable
deriving DecidableEq, Repr

/-- Config.Validate from hare.go: fails when the terminating round
(iterationsLimit, hardlock) starts later than zdist, then when the
protocol is enabled with disableLayer not larger than enableLayer. -/
def Config.validate (cfg : Config) (zdist : Int) : ValidateResult :=
  let terminates := cfg.roundStart ⟨cfg.iterationsLimit, Round.hardlock⟩
  if zdist < terminates then ValidateResult.errTerminates
  else if cfg.enable = true ∧ cfg.disableLayer ≤ cfg.enableLayer then
    ValidateResult.errDisableBeforeEnable
  else ValidateResult.ok

/-- DefaultConfig from hare.go, with durations in seconds as ticks. -/
def DefaultConfig : Config where
  enable := false
  enableLayer := 0
  disableLayer := 4294967295
  committee := 800
  committeeUpgrade := none
  leaders := 5
  iterationsLimit := 4
  preroundDelay := 25
  roundDuration := 12
  logStats := false
  protocolName := "/h/3.0"

/-- The expected arrival time of a message of a given round, as the
handler computes it (hare.go line 352): layer start time plus
Config.roundStart of the round. -/
def expectedTime (cfg : Config) (layerStart : Int) (ir : IterRound) : Int :=
  layerStart + cfg.roundStart ir

/-- Spec-side formula of claim C4, written from the spec words:
`expected = layer_start + preround_delay + (absolute(round) - 1) *
round_duration` with integer subtraction. -/
def specExpectedTime (cfg : Config) (layerStart : Int) (ir : IterRound) : Int :=
  layerStart + cfg.preroundDelay + ((ir.absolute : Int) - 1) * cfg.roundDuration

/-- C1: Config.Validate succeeds with respect to the bound zdist iff
`preround_delay + (iterations_limit * rounds_per_iter) * round_duration
≤ zdist`, and returns an error whenever the bound is violated; the
bound is the round start of the terminating round
(iterations_limit, hardlock). -/
theorem validate_zdist_bound (cfg : Config) (zdist : Int) :
    (cfg.validate zdist ≠ ValidateResult.errTerminates ↔
      cfg.preroundDelay + ((cfg.iterationsLimit * roundsPerIter : Nat) : Int) * cfg.roundDuration ≤ zdist)
    ∧ (¬ cfg.preroundDelay + ((cfg.iterationsLimit * roundsPerIter : Nat) : Int) * cfg.roundDuration ≤ zdist →
        cfg.validate zdist = ValidateResult.errTerminates) := by
  have ht : cfg.roundStart ⟨cfg.iterationsLimit, Round.hardlock⟩
      = cfg.preroundDelay + ((cfg.iterationsLimit * roundsPerIter : Nat) : Int) * cfg.roundDuration := by
    simp [Config.roundStart, IterRound.absolute, Round.index]
  constructor
  · simp only [Config.validate, ht]
    split_ifs with h1 h2
    · exact ⟨fun h => absurd rfl h, fun h => absurd h (by omega)⟩
    · exact ⟨fun _ => by omega, fun _ => by simp⟩
    · exact ⟨fun _ => by omega, fun _ => by simp⟩
  · intro hb
    simp only [Config.validate, ht]
    split_ifs with h1 h2
    · rfl
    · exact absurd (Int.not_lt.mp h1) hb
    · exact absurd (Int.not_lt.mp h1) hb

/-- Witness for validate_zdist_bound at the default configuration:
the bound 25 + (4 * 7) * 12 = 361 is at most 400, so Validate does not
return the termination-bound error. -/
theorem validate_zdist_bound_witness :
    DefaultConfig.validate 400 ≠ ValidateResult.errTerminates :=
  (validate_zdist_bound DefaultConfig 400).1.mpr (by decide)

/-- C4 (amended): the expected arrival time used by the handler is
`layer_start + preround_delay + (absolute(round) - 1) * round_duration`
for every round whose round component is not the preround; for
preround-tagged rounds it is `layer_start + preround_delay`. -/
theorem expectedTime_amended (cfg : Config) (ls : Int) (ir : IterRound) :
    (ir.round ≠ Round.preround → expectedTime cfg ls ir = specExpectedTime cfg ls ir)
    ∧ (ir.round = Round.preround → expectedTime cfg ls ir = ls + cfg.preroundDelay) := by
  obtain ⟨i, r⟩ := ir
  constructor
  · intro hr
    have hne : ¬ r = Round.preround := hr
    have hidx : 1 ≤ Round.index r := by
      cases r
      · exact absurd rfl hne
      all_goals decide
    simp only [expectedTime, specExpectedTime, Config.roundStart, IterRound.absolute]
    rw [if_neg hne]
    have hcast : ((i * roundsPerIter + r.index - 1 : Nat) : Int)
        = ((i * roundsPerIter + r.index : Nat) : Int) - 1 := by
      omega
    rw [hcast]
    ring
  · intro hr
    have hp : r = Round.preround := hr
    subst hp
    simp [expectedTime, Config.roundStart]

/-- Witness for expectedTime_amended at a status round of iteration 0
of the default configuration. -/
theorem expectedTime_amended_witness :
    expectedTime DefaultConfig 0 ⟨0, Round.status⟩ = specExpectedTime DefaultConfig 0 ⟨0, Round.status⟩ :=
  (expectedTime_amended DefaultConfig 0 ⟨0, Round.status⟩).1 (by decide)

/-- C4 counterexample: at the preround (absolute 0) the handler's
expected time is `layer_start + preround_delay`, not the claimed
`layer_start + preround_delay + (0 - 1) * round_duration`; with the
default configuration (preround delay 25, round duration 12) the two
differ (25 versus 13). -/
theorem expectedTime_counterexample :
    expectedTime DefaultConfig 0 ⟨0, Round.preround⟩
      ≠ specExpectedTime DefaultConfig 0 ⟨0, Round.preround⟩ := by
  decide

/-- Modelled from the spec: the wire envelope fields the handler
reads; the message type itself (types.go of hare3) is not under src.
Node ids and signatures are abstracted away: the outcome of each
collaborator call is carried by HandlerEnv below. -/
structure Msg where
  layer : Nat
  iterRound : IterRound
  sender : Nat
deriving DecidableEq, Repr

/-- Modelled from the spec: the zero grade; a zero-grade message is
dropped by the oracle validation step. -/
def grade0 : Nat := 0

/-- The environment of one Hare.Handler call: the outcome of every
collaborator interaction the handler makes, in source order --
codec.Decode, Message.Validate, the sessions map, the signature
verifier, atxsdata.IsMalicious, oracle grading, and the state
machine's OnInput result (gossip flag and optional equivocation,
identified by the equivocating smesher id). -/
structure HandlerEnv where
  decoded : Option Msg
  syntacticOk : Bool
  registered : List Nat
  sigOk : Bool
  malicious : Bool
  grade : Nat
  gossip : Bool
  equivocation : Option Nat
deriving DecidableEq, Repr

/-- Hard rejection reasons: these wrap pubsub.ErrValidationReject in
the source, so the transport penalizes the sending peer. -/
inductive HardReason
  | malformedDecode
  | malformedValidate
  | badSignature
deriving DecidableEq, Repr

/-- Soft rejection reasons: plain errors that do not wrap
pubsub.ErrValidationReject. -/
inductive SoftReason
  | notRegistered
  | zeroGrade
  | dropped
deriving DecidableEq, Repr

/-- Result of one Hare.Handler call. -/
inductive HandlerRes
  | hardReject (r : HardReason)
  | softReject (r : SoftReason)
  | accepted
deriving DecidableEq, Repr

/-- Observable outcome of one Hare.Handler call: the returned verdict,
the smesher id persisted through identities.SetMalicious (if any), and
the smesher id marked malicious in atxsdata (if any). -/
structure HandlerOut where
  res : HandlerRes
  persisted : Option Nat
  markedMalicious : Option Nat
deriving DecidableEq, Repr

/-- Hare.Handler from hare.go, step by step in source order: decode,
syntactic validation, session lookup by layer, signature verification,
grading, dispatch into the state machine, equivocation persistence
(only when the sender was not already malicious), graded-gossip
verdict. -/
def Handler (env : HandlerEnv) : HandlerOut :=
  match env.decoded with
  | none => ⟨HandlerRes.hardReject HardReason.malformedDecode, none, none⟩
  | some msg =>
    if env.syntacticOk = false then
      ⟨HandlerRes.hardReject HardReason.malformedValidate, none, none⟩
    else if msg.layer ∉ env.registered then
      ⟨HandlerRes.softReject SoftReason.notRegistered, none, none⟩
    else if env.sigOk = false then
      ⟨HandlerRes.hardReject HardReason.badSignature, none, none⟩
    else if env.grade = grade0 then
      ⟨HandlerRes.softReject SoftReason.zeroGrade, none, none⟩
    else
      let persist := if env.equivocation.isSome && !env.malicious then env.equivocation else none
      if env.gossip = false then ⟨HandlerRes.softReject SoftReason.dropped, persist, persist⟩
      else ⟨HandlerRes.accepted, persist, persist⟩

/-- Whether a handler result is a hard (peer-penalizing) rejection. -/
def HandlerRes.isHard : HandlerRes → Bool
  | HandlerRes.hardReject _ => true
  | _ => false

/-- C3: the handler hard-rejects exactly on decode failure, syntactic
validation failure, and signature failure; an unregistered layer gives
the soft not-registered rejection (before the signature is even
considered), and a zero grade gives the soft zero-grade rejection. -/
theorem Handler_reject_taxonomy (env : HandlerEnv) :
    ((Handler env).res.isHard = true ↔
      env.decoded = none
      ∨ (∃ m, env.decoded = some m ∧ env.syntacticOk = false)
      ∨ (∃ m, env.decoded = some m ∧ env.syntacticOk = true
          ∧ m.layer ∈ env.registered ∧ env.sigOk = false))
    ∧ (∀ m, env.decoded = some m → env.syntacticOk = true →
        m.layer ∉ env.registered →
        (Handler env).res = HandlerRes.softReject SoftReason.notRegistered)
    ∧ (∀ m, env.decoded = some m → env.syntacticOk = true →
        m.layer ∈ env.registered → env.sigOk = true →
        env.grade = grade0 →
        (Handler env).res = HandlerRes.softReject SoftReason.zeroGrade) := by
  obtain ⟨dec, syn, reg, sig, mal, gr, gos, eqv⟩ := env
  cases dec with
  | none => simp [Handler, HandlerRes.isHard]
  | some m =>
    cases syn <;> cases sig <;>
      by_cases hreg : m.layer ∈ reg <;>
        by_cases hgr : gr = grade0 <;> cases gos <;>
          simp [Handler, HandlerRes.isHard, hreg, hgr]

/-- Witness for Handler_reject_taxonomy: a syntactically valid message
for an unregistered layer is soft-rejected as not registered. -/
theorem Handler_reject_taxonomy_witness :
    (Handler ⟨some ⟨7, ⟨0, Round.preround⟩, 5⟩, true, [3], false, false, 2, true, none⟩).res
      = HandlerRes.softReject SoftReason.notRegistered :=
  (Handler_reject_taxonomy ⟨some ⟨7, ⟨0, Round.preround⟩, 5⟩, true, [3], false, false, 2, true, none⟩).2.1
    ⟨7, ⟨0, Round.preround⟩, 5⟩ rfl rfl (by decide)

/-- C8: the handler persists an equivocation proof (and marks the
sender malicious in atxsdata) exactly when the message passed decode,
validation, registration, signature and grading, the state machine
returned an equivocation, and the sender was not already flagged
malicious at receipt; an already-malicious sender never triggers
persistence, and what is persisted is the equivocation itself. -/
theorem Handler_equivocation_persistence (env : HandlerEnv) :
    ((Handler env).persisted ≠ none ↔
      (∃ m, env.decoded = some m ∧ env.syntacticOk = true
        ∧ m.layer ∈ env.registered ∧ env.sigOk = true
        ∧ env.grade ≠ grade0 ∧ env.equivocation ≠ none ∧ env.malicious = false))
    ∧ ((Handler env).persisted ≠ none → (Handler env).persisted = env.equivocation)
    ∧ (env.malicious = true → (Handler env).persisted = none)
    ∧ (Handler env).markedMalicious = (Handler env).persisted := by
  obtain ⟨dec, syn, reg, sig, mal, gr, gos, eqv⟩ := env
  cases dec with
  | none => simp [Handler]
  | some m =>
    cases syn <;> cases sig <;> cases mal <;>
      by_cases hreg : m.layer ∈ reg <;>
        by_cases hgr : gr = grade0 <;> cases gos <;> cases eqv <;>
          simp [Handler, hreg, hgr]

/-- Witness for Handler_equivocation_persistence: a fully valid
message whose dispatch reports an equivocation by smesher 9, with the
sender not previously malicious, leads to persistence of that proof. -/
theorem Handler_equivocation_persistence_witness :
    (Handler ⟨some ⟨3, ⟨0, Round.preround⟩, 5⟩, true, [3], true, false, 2, true, some 9⟩).persisted
      = some 9 :=
  ((Handler_equivocation_persistence
      ⟨some ⟨3, ⟨0, Round.preround⟩, 5⟩, true, [3], true, false, 2, true, some 9⟩).2.1
    (by decide)).trans rfl

/-- types.EmptyBeacon: the all-zero beacon, modelled as 0. -/
def emptyBeacon : Nat := 0

/-- The part of a hare3 session that onLayer fixes at creation: the
layer, the epoch beacon, and the protocol threshold passed to
newProtocol. -/
structure Session where
  lid : Nat
  beacon : Nat
  threshold : Nat
deriving DecidableEq, Repr

/-- Observable outcome of Hare.onLayer: the updated sessions map
(an association list, newest first) and whether a session task was
started for the layer. -/
structure OnLayerOut where
  sessions : List (Nat × Session)
  started : Bool
deriving DecidableEq, Repr

/-- Hare.onLayer from hare.go: if the node is not synced, or the
beacon lookup for the layer's epoch errs or yields the empty beacon,
return without touching the sessions map; otherwise register a session
whose protocol threshold is CommitteeFor(layer)/2 + 1 and start its
task. beaconRes is the result of beacons.Get (none on error). -/
def onLayer (cfg : Config) (sessions : List (Nat × Session)) (layer : Nat)
    (synced : Bool) (beaconRes : Option Nat) : OnLayerOut :=
  if synced = false then ⟨sessions, false⟩
  else
    match beaconRes with
    | none => ⟨sessions, false⟩
    | some b =>
      if b = emptyBeacon then ⟨sessions, false⟩
      else ⟨(layer, ⟨layer, b, cfg.committeeFor layer / 2 + 1⟩) :: sessions, true⟩

/-- C6: onLayer registers a session and starts its task exactly when
the sync probe reports synced and the beacon lookup succeeds with a
non-empty beacon; on any failed precondition the sessions map is left
unchanged and no task is started. -/
theorem onLayer_preconditions (cfg : Config) (ss : List (Nat × Session)) (layer : Nat)
    (synced : Bool) (br : Option Nat) :
    ((onLayer cfg ss layer synced br).started = true ↔
      synced = true ∧ ∃ b, br = some b ∧ b ≠ emptyBeacon)
    ∧ ((onLayer cfg ss layer synced br).started = true →
        ∃ s, (onLayer cfg ss layer synced br).sessions = (layer, s) :: ss)
    ∧ ((onLayer cfg ss layer synced br).started = false →
        (onLayer cfg ss layer synced br).sessions = ss) := by
  cases synced with
  | false => simp [onLayer]
  | true =>
    cases br with
    | none => simp [onLayer]
    | some b =>
      by_cases hb : b = emptyBeacon <;> simp [onLayer, hb]

/-- Witness for onLayer_preconditions: with the default configuration,
a synced node and beacon 5 the session for layer 11 is registered. -/
theorem onLayer_preconditions_witness :
    ∃ s, (onLayer DefaultConfig [] 11 true (some 5)).sessions = [(11, s)] :=
  (onLayer_preconditions DefaultConfig [] 11 true (some 5)).2.1 (by decide)

/-- C2: the committee size for a layer is the upgrade size exactly
when an upgrade is configured and the layer is at or after its layer,
and the default committee size otherwise; and the session onLayer
registers carries threshold CommitteeFor(layer)/2 + 1. -/
theorem committee_and_threshold (cfg : Config) (ss : List (Nat × Session)) (layer b : Nat)
    (hb : b ≠ emptyBeacon) :
    (∀ s, (onLayer cfg ss layer true (some b)).sessions.head? = some (layer, s) →
      s.threshold = cfg.committeeFor layer / 2 + 1)
    ∧ (cfg.committeeUpgrade = none → cfg.committeeFor layer = cfg.committee)
    ∧ (∀ u, cfg.committeeUpgrade = some u → u.layer ≤ layer →
        cfg.committeeFor layer = u.size)
    ∧ (∀ u, cfg.committeeUpgrade = some u → layer < u.layer →
        cfg.committeeFor layer = cfg.committee) := by
  refine ⟨?_, ?_, ?_, ?_⟩
  · intro s hs
    simp [onLayer, hb] at hs
    rw [← hs]
  · intro h
    simp [Config.committeeFor, h]
  · intro u hu hle
    simp [Config.committeeFor, hu, hle]
  · intro u hu hlt
    simp [Config.committeeFor, hu, Nat.not_le.mpr hlt]

/-- Witness for committee_and_threshold: with a committee of 800
upgraded to 600 at layer 20, the session created at layer 25 has
threshold 600/2 + 1 = 301. -/
theorem committee_and_threshold_witness :
    ({ DefaultConfig with committeeUpgrade := some ⟨20, 600⟩ } : Config).committeeFor 25 = 600 :=
  (committee_and_threshold { DefaultConfig with committeeUpgrade := some ⟨20, 600⟩ } [] 25 5
    (by decide)).2.2.1 ⟨20, 600⟩ rfl (by decide)

/-- math.MaxUint32, the sentinel disable bound used by Hare.Start. -/
def maxUint32 : Nat := 4294967295

/-- The first layer Hare.Start schedules: max of the successor of the
current layer, the configured enable layer, and the successor of the
effective genesis layer. -/
def startEnabled (cfg : Config) (current genesis : Nat) : Nat :=
  max (max (current + 1) cfg.enableLayer) (genesis + 1)

/-- The exclusive disable bound of Hare.Start: the configured disable
layer when positive, otherwise math.MaxUint32. -/
def startDisabled (cfg : Config) : Nat :=
  if 0 < cfg.disableLayer then cfg.disableLayer else maxUint32

/-- The layers for which Hare.Start's loop awaits the clock and runs
onLayer: every layer from startEnabled up to but excluding
startDisabled. -/
def scheduledLayers (cfg : Config) (current genesis : Nat) : List Nat :=
  List.range' (startEnabled cfg current genesis)
    (startDisabled cfg - startEnabled cfg current genesis)

/-- C10: Start schedules sessions exactly for the layers from
max(current layer + 1, EnableLayer, effective genesis + 1) up to but
excluding the disable bound, which is DisableLayer when positive and
2^32 - 1 when DisableLayer is zero. -/
theorem start_layer_range (cfg : Config) (current genesis l : Nat) :
    (l ∈ scheduledLayers cfg current genesis ↔
      max (max (current + 1) cfg.enableLayer) (genesis + 1) ≤ l ∧ l < startDisabled cfg)
    ∧ (cfg.disableLayer = 0 → startDisabled cfg = 2 ^ 32 - 1)
    ∧ (0 < cfg.disableLayer → startDisabled cfg = cfg.disableLayer) := by
  refine ⟨?_, ?_, ?_⟩
  · rw [scheduledLayers, List.mem_range'_1, startEnabled]
    omega
  · intro h
    simp [startDisabled, h, maxUint32]
  · intro h
    simp [startDisabled, h]

/-- Witness for start_layer_range: with the default configuration
(disable layer 2^32 - 1), current layer 7 and genesis 3, layer 10 is
scheduled. -/
theorem start_layer_range_witness :
    10 ∈ scheduledLayers DefaultConfig 7 3 :=
  (start_layer_range DefaultConfig 7 3 10).1.mpr (by decide)

/-- Modelled from the spec: the output record of one protocol Next()
step (the protocol state machine, protocol.go of hare3, is not under
src): an optional outbound message template, an optional weak coin, an
optional terminal result (a proposal id list), and the terminated
flag. -/
structure Output where
  message : Option Msg
  coin : Option Bool
  result : Option (List Nat)
  terminated : Bool
deriving DecidableEq, Repr

/-- The publish loop of Hare.onOutput: one pubsub publish attempt per
signer holding an eligibility proof (when there is a message to send);
a publish failure is only logged, so the loop consumes one entry of
the failure script per attempt and always continues. Returns the
number of publish attempts. -/
def publishLoop : List (Option Nat) → List Bool → Nat
  | [], _ => 0
  | none :: rest, fails => publishLoop rest fails
  | some _ :: rest, fails => publishLoop rest fails.tail + 1

/-- Observable outcome of one Hare.onOutput call. -/
structure OnOutputRes where
  error : Bool
  published : Nat
  coinDelivered : Bool
  resultDelivered : Bool
deriving DecidableEq, Repr

/-- Hare.onOutput from hare.go: publish the signed message for every
eligible signer (failures only logged), then deliver the weak coin and
the result on their channels; each delivery select returns ctx.Err()
when the cancellation context is done. vrfs are the per-signer
eligibility slots, fails the publish failure script, ctxDone whether
the cancellation context is done. -/
def onOutput (vrfs : List (Option Nat)) (out : Output) (fails : List Bool)
    (ctxDone : Bool) : OnOutputRes :=
  let pc := if out.message.isSome then publishLoop vrfs fails else 0
  if out.coin.isSome && ctxDone then ⟨true, pc, false, false⟩
  else if out.result.isSome && ctxDone then ⟨true, pc, out.coin.isSome, false⟩
  else ⟨false, pc, out.coin.isSome, out.result.isSome⟩

/-- The publish loop attempts one publish per eligible signer no
matter which publishes fail. -/
theorem publishLoop_count (vrfs : List (Option Nat)) :
    ∀ fails, publishLoop vrfs fails = (vrfs.filter Option.isSome).length := by
  induction vrfs with
  | nil => intro fails; rfl
  | cons v rest ih =>
    intro fails
    cases v with
    | none => simpa [publishLoop] using ih fails
    | some x => simpa [publishLoop] using ih fails.tail

/-- C9: onOutput errs only when the cancellation context is done; the
publish failure script changes nothing observable, the number of
publish attempts is the number of eligible signers whenever there is a
message, and without cancellation the coin and the result present in
the round output are both delivered. -/
theorem onOutput_spec (vrfs : List (Option Nat)) (out : Output) (fails fails2 : List Bool)
    (ctxDone : Bool) :
    ((onOutput vrfs out fails ctxDone).error = true → ctxDone = true)
    ∧ onOutput vrfs out fails ctxDone = onOutput vrfs out fails2 ctxDone
    ∧ (onOutput vrfs out fails ctxDone).published
        = (if out.message.isSome then (vrfs.filter Option.isSome).length else 0)
    ∧ (ctxDone = false →
        (onOutput vrfs out fails ctxDone).coinDelivered = out.coin.isSome
        ∧ (onOutput vrfs out fails ctxDone).resultDelivered = out.result.isSome) := by
  have hp : ∀ f, (if out.message.isSome then publishLoop vrfs f else 0)
      = (if out.message.isSome then (vrfs.filter Option.isSome).length else 0) := by
    intro f
    rw [publishLoop_count vrfs f]
  refine ⟨?_, ?_, ?_, ?_⟩
  · intro h
    cases ctxDone with
    | true => rfl
    | false => simp [onOutput] at h
  · simp only [onOutput, hp]
  · simp only [onOutput]
    split_ifs <;> simp [publishLoop_count]
  · intro h
    subst h
    simp [onOutput]

/-- Witness for onOutput_spec: without cancellation, a round output
carrying a coin and a result has both delivered, whatever the publish
script. -/
theorem onOutput_spec_witness :
    (onOutput [some 1, none] ⟨some ⟨3, ⟨0, Round.preround⟩, 5⟩, some true, some [2], false⟩
        [true] false).coinDelivered = true
    ∧ (onOutput [some 1, none] ⟨some ⟨3, ⟨0, Round.preround⟩, 5⟩, some true, some [2], false⟩
        [true] false).resultDelivered = true :=
  (onOutput_spec [some 1, none] ⟨some ⟨3, ⟨0, Round.preround⟩, 5⟩, some true, some [2], false⟩
    [true] [] false).2.2.2 rfl

/-- One turn of the round loop of Hare.run: either the cancellation
context is observed done in the round select (the loop returns a nil
error), or the round timer fires and the protocol advances, with the
pre-advance iteration counter, the protocol output, the publish
failure script of the round, and whether the context is done at
delivery time. -/
inductive RunStep
  | cancelled
  | tick (iter : Nat) (out : Output) (fails : List Bool) (ctxDone : Bool)
deriving DecidableEq, Repr

/-- Whether a run step involves no cancellation. -/
def RunStep.cancelFree : RunStep → Bool
  | RunStep.cancelled => false
  | RunStep.tick _ _ _ c => !c

/-- The round loop of Hare.run from hare.go, over a trace of round
steps. Returns some true when run returns a nil error, some false when
it returns a non-nil error, and none when the trace ends with the loop
still running. The res flag records whether some output carried a
result. -/
def runLoop (limit : Nat) (vrfs : List (Option Nat)) :
    List RunStep → Bool → Option Bool
  | [], _ => none
  | RunStep.cancelled :: _, _ => some true
  | RunStep.tick iter out fails ctxDone :: rest, res =>
    let res2 := res || out.result.isSome
    if (onOutput vrfs out fails ctxDone).error = true then some false
    else if out.terminated = true then (if res2 = true then some true else some false)
    else if iter = limit then some false
    else runLoop limit vrfs rest res2

/-- The whole of Hare.run: the preround wait (which returns ctx.Err()
when cancelled while a signer is active in the preround), the initial
onOutput call after the first protocol advance, then the round loop. -/
structure RunEnv where
  limit : Nat
  vrfs : List (Option Nat)
  active : Bool
  preCtxDone : Bool
  initOut : Output
  initFails : List Bool
  initCtxDone : Bool
  steps : List RunStep
deriving DecidableEq, Repr

/-- Hare.run from hare.go over a RunEnv trace: some true = returned
nil, some false = returned a non-nil error, none = trace exhausted. -/
def run (env : RunEnv) : Option Bool :=
  if env.active && env.preCtxDone then some false
  else if (onOutput env.vrfs env.initOut env.initFails env.initCtxDone).error = true then some false
  else runLoop env.limit env.vrfs env.steps false

/-- Whether a run trace is entirely free of cancellation. -/
def RunEnv.cancelFree (env : RunEnv) : Bool :=
  !env.preCtxDone && !env.initCtxDone && env.steps.all RunStep.cancelFree

/-- Spec-side predicate, written from the spec words of claim C7: the
protocol terminated (Next returned terminated) after some output
carried a result, within the executed part of the trace. -/
def specTerminatedWithResult (limit : Nat) : List RunStep → Bool → Bool
  | [], _ => false
  | RunStep.cancelled :: _, _ => false
  | RunStep.tick iter out _ _ :: rest, res =>
    let res2 := res || out.result.isSome
    if out.terminated = true then res2
    else if iter = limit then false
    else specTerminatedWithResult limit rest res2

/-- onLayer's epilogue from hare.go: the layer patrol's CompleteHare
is invoked exactly when run returned a non-nil error. -/
def patrolNotified : Option Bool → Bool
  | some false => true
  | _ => false

/-- Cancel-free round loops return nil exactly on termination with a
result. -/
theorem runLoop_cancelFree (limit : Nat) (vrfs : List (Option Nat)) :
    ∀ steps res, steps.all RunStep.cancelFree = true →
      (runLoop limit vrfs steps res = some true ↔
        specTerminatedWithResult limit steps res = true) := by
  intro steps
  induction steps with
  | nil => intro res h; simp [runLoop, specTerminatedWithResult]
  | cons s rest ih =>
    intro res h
    rw [List.all_cons, Bool.and_eq_true] at h
    cases s with
    | cancelled => simp [RunStep.cancelFree] at h
    | tick iter out fails ctxDone =>
      have hc : ctxDone = false := by
        have := h.1
        simp [RunStep.cancelFree] at this
        exact this
      subst hc
      have herr : (onOutput vrfs out fails false).error = false := by
        simp [onOutput]
      simp only [runLoop, specTerminatedWithResult, herr]
      by_cases ht : out.terminated = true
      · simp only [ht, if_true, if_false]
        by_cases hr : (res || out.result.isSome) = true <;> simp [hr]
      · simp only [Bool.false_eq_true, if_false, ht]
        by_cases hi : iter = limit
        · simp [hi]
        · simp only [hi, if_false]
          exact ih (res || out.result.isSome) h.2

/-- C7 (amended): in a cancellation-free session, run returns without
error exactly when the protocol terminated after producing a result
(so reaching the iterations limit, or terminating with no result,
returns an error); and the layer patrol's CompleteHare is invoked
exactly when run returned an error. -/
theorem run_error_characterization (env : RunEnv) (h : env.cancelFree = true) :
    (run env = some true ↔ specTerminatedWithResult env.limit env.steps false = true)
    ∧ (patrolNotified (run env) = true ↔ run env = some false) := by
  obtain ⟨hpre, hinit, hsteps⟩ : env.preCtxDone = false ∧ env.initCtxDone = false
      ∧ env.steps.all RunStep.cancelFree = true := by
    rw [RunEnv.cancelFree, Bool.and_eq_true, Bool.and_eq_true,
      Bool.not_eq_true', Bool.not_eq_true'] at h
    exact ⟨h.1.1, h.1.2, h.2⟩
  have herr : (onOutput env.vrfs env.initOut env.initFails env.initCtxDone).error = false := by
    rw [hinit]
    simp [onOutput]
  have hrun : run env = runLoop env.limit env.vrfs env.steps false := by
    simp [run, hpre, herr]
  constructor
  · rw [hrun]
    exact runLoop_cancelFree env.limit env.vrfs env.steps false hsteps
  · cases hr : run env with
    | none => simp [patrolNotified]
    | some b => cases b <;> simp [patrolNotified]

/-- Witness for run_error_characterization: a session whose first loop
round terminates carrying a result returns nil. -/
theorem run_error_characterization_witness :
    (run ⟨4, [], false, false, ⟨none, none, none, false⟩, [], false,
        [RunStep.tick 0 ⟨none, none, some [7], true⟩ [] false]⟩ = some true ↔
      specTerminatedWithResult 4
        [RunStep.tick 0 ⟨none, none, some [7], true⟩ [] false] false = true)
    ∧ (patrolNotified (run ⟨4, [], false, false, ⟨none, none, none, false⟩, [], false,
        [RunStep.tick 0 ⟨none, none, some [7], true⟩ [] false]⟩) = true ↔
      run ⟨4, [], false, false, ⟨none, none, none, false⟩, [], false,
        [RunStep.tick 0 ⟨none, none, some [7], true⟩ [] false]⟩ = some false) :=
  run_error_characterization
    ⟨4, [], false, false, ⟨none, none, none, false⟩, [], false,
      [RunStep.tick 0 ⟨none, none, some [7], true⟩ [] false]⟩ (by decide)

/-- C7 counterexample: a session cancelled in the round select returns
a nil error (hare.go line 490) although the protocol never terminated
with a result, so "run returns without error exactly when the protocol
terminated after producing a result" fails as stated. -/
theorem run_counterexample :
    run ⟨4, [], false, false, ⟨none, none, none, false⟩, [], false, [RunStep.cancelled]⟩
        = some true
    ∧ specTerminatedWithResult 4 [RunStep.cancelled] false = false := by
  decide

/-- atxsdata.ATX as used by hare.go: Height is the ATX's tick height
(base plus tick count), BaseHeight its base tick height. Only these
two fields are read by selectProposals. -/
structure ATX where
  height : Nat
  baseHeight : Nat
deriving DecidableEq, Repr

/-- A stored proposal as read by selectProposals: id, ATX id, smesher
id, beacon, and the proposal's own malicious flag (p.IsMalicious). -/
structure Proposal where
  id : Nat
  atxID : Nat
  smesherID : Nat
  beacon : Nat
  malicious : Bool
deriving DecidableEq, Repr

/-- Result of atxs.GetIDByEpochAndNodeID for one signer: not found
(sql.ErrNotFound), any other database error, or the signer's ATX id in
the publish epoch. -/
inductive SignerAtxRes
  | notFound
  | dbError
  | found (atxid : Nat)
deriving DecidableEq, Repr

/-- The min update of selectProposals' signer loop (hare.go lines
555-558): `if min == nil || (min != nil && own != nil && own.Height <
min.Height) { min = own }`. -/
def updateMin : Option ATX → Option ATX → Option ATX
  | none, own => own
  | some m, some o => if o.height < m.height then some o else some m
  | some m, none => some m

/-- The signer loop of selectProposals: fold the signers' ATX lookup
results; skip not-found signers, abort on a database error (the source
then returns an empty list), otherwise update the running minimum with
atxsdata.Get of the found ATX id. none = aborted. -/
def signerMinLoop (atxData : List (Nat × ATX)) :
    List SignerAtxRes → Option ATX → Option (Option ATX)
  | [], min0 => some min0
  | SignerAtxRes.notFound :: rest, min0 => signerMinLoop atxData rest min0
  | SignerAtxRes.dbError :: _, _ => none
  | SignerAtxRes.found id :: rest, min0 =>
    signerMinLoop atxData rest (updateMin min0 (atxData.lookup id))

/-- The number of candidates of the layer sharing an ATX id (the atxs
count map of selectProposals). -/
def atxCount (cands : List Proposal) (a : Nat) : Nat :=
  (cands.filter (fun p => p.atxID == a)).length

/-- The environment of one selectProposals call: atxsdata for the
target epoch, the malicious identity set, the proposal store's
candidates for the layer, the session beacon, and the per-signer ATX
id lookup results for the publish epoch. -/
structure SelectEnv where
  atxData : List (Nat × ATX)
  maliciousIds : List Nat
  candidates : List Proposal
  beacon : Nat
  signerAtxs : List SignerAtxRes
deriving DecidableEq, Repr

/-- The candidate filter loop of selectProposals (hare.go lines
571-614): skip malicious smeshers, skip duplicated ATX ids, abort
(none, the source returns an empty list) on an unloaded ATX header,
skip headers whose base tick height reaches the running minimum's
height, and keep proposals whose beacon matches the session beacon. -/
def filterLoop (env : SelectEnv) (minAtx : ATX) : List Proposal → Option (List Nat)
  | [] => some []
  | p :: rest =>
    if env.maliciousIds.contains p.smesherID = true ∨ p.malicious = true then
      filterLoop env minAtx rest
    else if 1 < atxCount env.candidates p.atxID then
      filterLoop env minAtx rest
    else
      match env.atxData.lookup p.atxID with
      | none => none
      | some header =>
        if minAtx.height ≤ header.baseHeight then filterLoop env minAtx rest
        else if p.beacon = env.beacon then
          (filterLoop env minAtx rest).map (fun r => p.id :: r)
        else filterLoop env minAtx rest

/-- Hare.selectProposals from hare.go: compute the minimum-height ATX
among the local signers' ATXs of the publish epoch, returning an empty
list on a database error or when no minimum exists, then filter the
layer's candidates. -/
def selectProposals (env : SelectEnv) : List Nat :=
  match signerMinLoop env.atxData env.signerAtxs none with
  | none => []
  | some none => []
  | some (some minAtx) =>
    match filterLoop env minAtx env.candidates with
    | none => []
    | some r => r

/-- The tick heights (ATX Height) of the local signers' found ATXs. -/
def signerHeights (env : SelectEnv) : List Nat :=
  env.signerAtxs.filterMap (fun r =>
    match r with
    | SignerAtxRes.found id => (env.atxData.lookup id).map ATX.height
    | _ => none)

/-- Spec-side: the base tick heights (ATX BaseHeight) of the local
signers' found ATXs, as named by claim C5. -/
def specSignerBaseHeights (env : SelectEnv) : List Nat :=
  env.signerAtxs.filterMap (fun r =>
    match r with
    | SignerAtxRes.found id => (env.atxData.lookup id).map ATX.baseHeight
    | _ => none)

/-- Spec-side predicate, written from the words of claim C5: every
returned proposal's ATX base tick height is strictly below the minimum
base tick height among the local signers' ATXs (below every one of
them). -/
def specC5BaseHeightFilter (env : SelectEnv) : Prop :=
  ∀ p ∈ env.candidates, p.id ∈ selectProposals env →
    ∀ b ∈ specSignerBaseHeights env,
      ∀ hdr ∈ (env.atxData.lookup p.atxID).toList, hdr.baseHeight < b

/-- A concrete selectProposals environment: one signer whose ATX has
tick height 10 and base tick height 0, and one candidate proposal
whose ATX has base tick height 5 (and matching beacon 3). -/
def envC5 : SelectEnv where
  atxData := [(1, ⟨10, 0⟩), (2, ⟨20, 5⟩)]
  maliciousIds := []
  candidates := [⟨100, 2, 7, 3, false⟩]
  beacon := 3
  signerAtxs := [SignerAtxRes.found 1]

/-- Each proposal already in the list contributes to its own ATX
count. -/
theorem atxCount_pos (cands : List Proposal) (p : Proposal) (hp : p ∈ cands) :
    0 < atxCount cands p.atxID := by
  have hm : p ∈ cands.filter (fun q => q.atxID == p.atxID) :=
    List.mem_filter.mpr ⟨hp, by simp⟩
  exact List.length_pos.mpr (List.ne_nil_of_mem hm)

/-- Everything the filter loop keeps comes from its candidate list and
passed every check against the running minimum's tick height. -/
theorem filterLoop_mem (env : SelectEnv) (minAtx : ATX) :
    ∀ cands r, filterLoop env minAtx cands = some r →
      ∀ pid ∈ r, ∃ p ∈ cands, p.id = pid
        ∧ env.maliciousIds.contains p.smesherID = false
        ∧ p.malicious = false
        ∧ atxCount env.candidates p.atxID ≤ 1
        ∧ (∃ hdr, env.atxData.lookup p.atxID = some hdr
            ∧ hdr.baseHeight < minAtx.height)
        ∧ p.beacon = env.beacon := by
  intro cands
  induction cands with
  | nil =>
    intro r hr pid hpid
    simp only [filterLoop, Option.some_inj] at hr
    subst hr
    exact absurd hpid (List.not_mem_nil pid)
  | cons p rest ih =>
    intro r hr pid hpid
    rw [filterLoop] at hr
    by_cases hmal : env.maliciousIds.contains p.smesherID = true ∨ p.malicious = true
    · rw [if_pos hmal] at hr
      obtain ⟨q, hq, hrest⟩ := ih r hr pid hpid
      exact ⟨q, List.mem_cons_of_mem p hq, hrest⟩
    · rw [if_neg hmal] at hr
      by_cases hdup : 1 < atxCount env.candidates p.atxID
      · rw [if_pos hdup] at hr
        obtain ⟨q, hq, hrest⟩ := ih r hr pid hpid
        exact ⟨q, List.mem_cons_of_mem p hq, hrest⟩
      · rw [if_neg hdup] at hr
        cases hlk : env.atxData.lookup p.atxID with
        | none => rw [hlk] at hr; exact absurd hr (by simp)
        | some header =>
          rw [hlk] at hr
          simp only [] at hr
          by_cases hbh : minAtx.height ≤ header.baseHeight
          · rw [if_pos hbh] at hr
            obtain ⟨q, hq, hrest⟩ := ih r hr pid hpid
            exact ⟨q, List.mem_cons_of_mem p hq, hrest⟩
          · rw [if_neg hbh] at hr
            by_cases hbc : p.beacon = env.beacon
            · rw [if_pos hbc] at hr
              obtain ⟨r0, hr0, hcons⟩ := Option.map_eq_some'.mp hr
              subst hcons
              rcases List.mem_cons.mp hpid with hhead | htail
              · push_neg at hmal
                refine ⟨p, List.mem_cons_self p rest, hhead.symm,
                  Bool.not_eq_true _ ▸ hmal.1, Bool.not_eq_true _ ▸ hmal.2,
                  Nat.not_lt.mp hdup, ⟨header, hlk, Nat.not_le.mp hbh⟩, hbc⟩
              · obtain ⟨q, hq, hrest⟩ := ih r0 hr0 pid htail
                exact ⟨q, List.mem_cons_of_mem p hq, hrest⟩
            · rw [if_neg hbc] at hr
              obtain ⟨q, hq, hrest⟩ := ih r hr pid hpid
              exact ⟨q, List.mem_cons_of_mem p hq, hrest⟩

/-- The signer loop's minimum is a lower bound: below the initial
bound and below the tick height of every found signer ATX. -/
theorem signerMinLoop_lb (atxData : List (Nat × ATX)) :
    ∀ rs min0 m, signerMinLoop atxData rs min0 = some (some m) →
      (∀ x, min0 = some x → m.height ≤ x.height)
      ∧ (∀ id a, SignerAtxRes.found id ∈ rs → atxData.lookup id = some a →
          m.height ≤ a.height) := by
  intro rs
  induction rs with
  | nil =>
    intro min0 m h
    simp only [signerMinLoop, Option.some_inj] at h
    subst h
    refine ⟨fun x hx => by rw [Option.some_inj] at hx; rw [hx], ?_⟩
    intro id a hmem
    exact absurd hmem (List.not_mem_nil _)
  | cons s rest ih =>
    intro min0 m h
    cases s with
    | notFound =>
      rw [signerMinLoop] at h
      obtain ⟨h1, h2⟩ := ih min0 m h
      refine ⟨h1, fun id a hmem hlk => ?_⟩
      rcases List.mem_cons.mp hmem with hhead | htail
      · exact absurd hhead (by simp)
      · exact h2 id a htail hlk
    | dbError =>
      rw [signerMinLoop] at h
      exact absurd h (by simp)
    | found id0 =>
      rw [signerMinLoop] at h
      obtain ⟨h1, h2⟩ := ih (updateMin min0 (atxData.lookup id0)) m h
      have hup : ∀ x, min0 = some x → m.height ≤ x.height := by
        intro x hx
        subst hx
        cases hlk0 : atxData.lookup id0 with
        | none => exact h1 x (by rw [hlk0]; rfl)
        | some o =>
          by_cases ho : o.height < x.height
          · have := h1 o (by rw [hlk0]; simp only [updateMin, if_pos ho])
            omega
          · exact h1 x (by rw [hlk0]; simp only [updateMin, if_neg ho])
      refine ⟨hup, fun id a hmem hlk => ?_⟩
      rcases List.mem_cons.mp hmem with hhead | htail
      · have hid : id = id0 := by
          injection hhead
        subst hid
        cases min0 with
        | none => exact h1 a (by rw [hlk]; rfl)
        | some x =>
          by_cases ha : a.height < x.height
          · exact h1 a (by rw [hlk]; simp only [updateMin, if_pos ha])
          · have := h1 x (by rw [hlk]; simp only [updateMin, if_neg ha])
            omega
      · exact h2 id a htail hlk

/-- When every signer lookup came back not-found the signer loop
returns its initial bound untouched. -/
theorem signerMinLoop_notFound (atxData : List (Nat × ATX)) :
    ∀ rs min0, (∀ r ∈ rs, r = SignerAtxRes.notFound) →
      signerMinLoop atxData rs min0 = some min0 := by
  intro rs
  induction rs with
  | nil => intro min0 _; rfl
  | cons s rest ih =>
    intro min0 hall
    have hs : s = SignerAtxRes.notFound := hall s (List.mem_cons_self s rest)
    subst hs
    rw [signerMinLoop]
    exact ih min0 (fun r hr => hall r (List.mem_cons_of_mem _ hr))

/-- C5 (amended): every proposal id selectProposals returns comes from
the layer's candidates and satisfies: its smesher is not malicious,
its ATX id occurs exactly once among the candidates, its ATX base tick
height is strictly below the tick height (ATX Height, not base tick
height) of every local signer ATX, and its beacon is the session
beacon; and when no local signer has an ATX for the publish epoch the
result is empty. -/
theorem selectProposals_sound (env : SelectEnv) :
    (∀ pid ∈ selectProposals env, ∃ p ∈ env.candidates,
      p.id = pid
      ∧ env.maliciousIds.contains p.smesherID = false
      ∧ p.malicious = false
      ∧ atxCount env.candidates p.atxID = 1
      ∧ (∃ hdr, env.atxData.lookup p.atxID = some hdr
          ∧ ∀ hgt ∈ signerHeights env, hdr.baseHeight < hgt)
      ∧ p.beacon = env.beacon)
    ∧ ((∀ r ∈ env.signerAtxs, r = SignerAtxRes.notFound) → selectProposals env = []) := by
  constructor
  · intro pid hmem
    rw [selectProposals] at hmem
    cases hmin : signerMinLoop env.atxData env.signerAtxs none with
    | none => rw [hmin] at hmem; exact absurd hmem (List.not_mem_nil pid)
    | some mo =>
      cases mo with
      | none => rw [hmin] at hmem; exact absurd hmem (List.not_mem_nil pid)
      | some minAtx =>
        rw [hmin] at hmem
        simp only [] at hmem
        cases hfl : filterLoop env minAtx env.candidates with
        | none =>
          rw [hfl] at hmem
          exact absurd hmem (by simp)
        | some r =>
          rw [hfl] at hmem
          simp only [] at hmem
          obtain ⟨p, hp, hpid, hm1, hm2, hcnt, ⟨hdr, hlk, hbh⟩, hbc⟩ :=
            filterLoop_mem env minAtx env.candidates r hfl pid hmem
          refine ⟨p, hp, hpid, hm1, hm2, ?_, ⟨hdr, hlk, ?_⟩, hbc⟩
          · have := atxCount_pos env.candidates p hp
            omega
          · intro hgt hhgt
            rw [signerHeights, List.mem_filterMap] at hhgt
            obtain ⟨rsr, hrsr, hf⟩ := hhgt
            cases rsr with
            | notFound => exact absurd hf (by simp)
            | dbError => exact absurd hf (by simp)
            | found id =>
              obtain ⟨a, hla, hah⟩ := Option.map_eq_some'.mp hf
              have hle := (signerMinLoop_lb env.atxData env.signerAtxs none minAtx hmin).2
                id a hrsr hla
              omega
  · intro hall
    rw [selectProposals, signerMinLoop_notFound env.atxData env.signerAtxs none hall]

/-- Witness for selectProposals_sound: at the concrete environment
envC5 the returned proposal 100 satisfies every amended condition. -/
theorem selectProposals_sound_witness :
    ∃ p ∈ envC5.candidates, p.id = 100
      ∧ envC5.maliciousIds.contains p.smesherID = false
      ∧ p.malicious = false
      ∧ atxCount envC5.candidates p.atxID = 1
      ∧ (∃ hdr, envC5.atxData.lookup p.atxID = some hdr
          ∧ ∀ hgt ∈ signerHeights envC5, hdr.baseHeight < hgt)
      ∧ p.beacon = envC5.beacon :=
  (selectProposals_sound envC5).1 100 (by decide)

/-- C5 counterexample: in envC5 the code keeps proposal 100 because
its ATX base tick height 5 is below the signer ATX's tick height 10,
but the claim demands it be below the signer ATX's base tick height 0,
which fails; so the claim's filter condition does not hold of the
code. -/
theorem selectProposals_counterexample : ¬ specC5BaseHeightFilter envC5 := by
  intro h
  have h5 := h ⟨100, 2, 7, 3, false⟩ (by decide) (by decide) 0 (by decide) ⟨20, 5⟩ (by decide)
  omega

end Hare3
